import Mathlib

/-!
Verification of the openclaw-wework gateway core.

A shallow embedding, in Lean 4, of the WorkWeixin (WeCom) channel plugin:
the webhook callback handler (`index.ts`) and the resilience
infrastructure (`src/infrastructure/*`: connection pool, request cache,
rate limiter, circuit breaker, message queue).

Modelling conventions:
* JavaScript strings are modelled as `String` / `List Char`; binary buffers
  (`Buffer`) are modelled as `List Nat` with every element `< 256`.
* `Date.now()` timestamps and millisecond durations are explicit `Int`
  parameters threaded through each operation.
* Fallible operations return `Except` / `Option`; JS falsiness of `""`, `0`
  and `null` is reproduced explicitly at each site where the source relies
  on it.
* Opaque cryptographic primitives used via Node's `crypto` module are
  either embedded bit-exactly (AES-256 block decryption per FIPS-197, the
  forgiving base64 codec) or taken as explicit function parameters (SHA1,
  the AES block cipher in round-trip statements that hold for every
  correct block cipher).
-/

namespace Wework

/-! ## Bytes and base64 (Node `Buffer.from(_, "base64")` model) -/

/-- Pointwise XOR of two byte strings (length = the shorter input). -/
def xorBytes (a b : List Nat) : List Nat := List.zipWith (· ^^^ ·) a b

/-- The base64 alphabet character for a sextet `n < 64`. -/
def b64Char (n : Nat) : Char :=
  if n < 26 then Char.ofNat (65 + n)
  else if n < 52 then Char.ofNat (97 + (n - 26))
  else if n < 62 then Char.ofNat (48 + (n - 52))
  else if n = 62 then '+' else '/'

/-- Sextet value of a base64 alphabet character; `none` for every other
character (Node's decoder silently skips those, including `=`). -/
def b64Val (c : Char) : Option Nat :=
  let n := c.toNat
  if 65 ≤ n ∧ n ≤ 90 then some (n - 65)
  else if 97 ≤ n ∧ n ≤ 122 then some (26 + (n - 97))
  else if 48 ≤ n ∧ n ≤ 57 then some (52 + (n - 48))
  else if n = 43 then some 62
  else if n = 47 then some 63
  else none

/-- Reassemble bytes from a sextet stream, dropping dangling bits
(Node keeps `⌊6·n/8⌋` bytes from `n` sextets). -/
def sexToBytes : List Nat → List Nat
  | s1 :: s2 :: s3 :: s4 :: rest =>
      (s1 * 4 + s2 / 16) :: ((s2 % 16) * 16 + s3 / 4) :: ((s3 % 4) * 64 + s4) ::
        sexToBytes rest
  | [s1, s2] => [s1 * 4 + s2 / 16]
  | [s1, s2, s3] => [s1 * 4 + s2 / 16, (s2 % 16) * 16 + s3 / 4]
  | _ => []

/-- Node's forgiving base64 decoder: non-alphabet characters (including
`=` padding) are skipped, then sextets are packed into bytes. -/
def b64decode (s : List Char) : List Nat := sexToBytes (s.filterMap b64Val)

/-- RFC 4648 base64 encoding of a byte string (the reference encoder used
to state round-trip properties). -/
def b64encode : List Nat → List Char
  | a :: b :: c :: rest =>
      b64Char (a / 4) :: b64Char ((a % 4) * 16 + b / 16) ::
        b64Char ((b % 16) * 4 + c / 64) :: b64Char (c % 64) :: b64encode rest
  | [a, b] => [b64Char (a / 4), b64Char ((a % 4) * 16 + b / 16),
      b64Char ((b % 16) * 4), '=']
  | [a] => [b64Char (a / 4), b64Char ((a % 4) * 16), '=', '=']
  | [] => []

/-! ## AES-256-CBC (Node `crypto.createDecipheriv("aes-256-cbc", key, iv)`,
`setAutoPadding(false)`), embedded bit-exactly per FIPS-197 -/

/-- The AES S-box (FIPS-197 Fig. 7). -/
def sbox : List Nat :=
  [99, 124, 119, 123, 242, 107, 111, 197, 48, 1, 103, 43, 254, 215, 171, 118,
  202, 130, 201, 125, 250, 89, 71, 240, 173, 212, 162, 175, 156, 164, 114, 192,
  183, 253, 147, 38, 54, 63, 247, 204, 52, 165, 229, 241, 113, 216, 49, 21,
  4, 199, 35, 195, 24, 150, 5, 154, 7, 18, 128, 226, 235, 39, 178, 117,
  9, 131, 44, 26, 27, 110, 90, 160, 82, 59, 214, 179, 41, 227, 47, 132,
  83, 209, 0, 237, 32, 252, 177, 91, 106, 203, 190, 57, 74, 76, 88, 207,
  208, 239, 170, 251, 67, 77, 51, 133, 69, 249, 2, 127, 80, 60, 159, 168,
  81, 163, 64, 143, 146, 157, 56, 245, 188, 182, 218, 33, 16, 255, 243, 210,
  205, 12, 19, 236, 95, 151, 68, 23, 196, 167, 126, 61, 100, 93, 25, 115,
  96, 129, 79, 220, 34, 42, 144, 136, 70, 238, 184, 20, 222, 94, 11, 219,
  224, 50, 58, 10, 73, 6, 36, 92, 194, 211, 172, 98, 145, 149, 228, 121,
  231, 200, 55, 109, 141, 213, 78, 169, 108, 86, 244, 234, 101, 122, 174, 8,
  186, 120, 37, 46, 28, 166, 180, 198, 232, 221, 116, 31, 75, 189, 139, 138,
  112, 62, 181, 102, 72, 3, 246, 14, 97, 53, 87, 185, 134, 193, 29, 158,
  225, 248, 152, 17, 105, 217, 142, 148, 155, 30, 135, 233, 206, 85, 40, 223,
  140, 161, 137, 13, 191, 230, 66, 104, 65, 153, 45, 15, 176, 84, 187, 22]

/-- The inverse AES S-box (FIPS-197 Fig. 14). -/
def invSbox : List Nat :=
  [82, 9, 106, 213, 48, 54, 165, 56, 191, 64, 163, 158, 129, 243, 215, 251,
  124, 227, 57, 130, 155, 47, 255, 135, 52, 142, 67, 68, 196, 222, 233, 203,
  84, 123, 148, 50, 166, 194, 35, 61, 238, 76, 149, 11, 66, 250, 195, 78,
  8, 46, 161, 102, 40, 217, 36, 178, 118, 91, 162, 73, 109, 139, 209, 37,
  114, 248, 246, 100, 134, 104, 152, 22, 212, 164, 92, 204, 93, 101, 182, 146,
  108, 112, 72, 80, 253, 237, 185, 218, 94, 21, 70, 87, 167, 141, 157, 132,
  144, 216, 171, 0, 140, 188, 211, 10, 247, 228, 88, 5, 184, 179, 69, 6,
  208, 44, 30, 143, 202, 63, 15, 2, 193, 175, 189, 3, 1, 19, 138, 107,
  58, 145, 17, 65, 79, 103, 220, 234, 151, 242, 207, 206, 240, 180, 230, 115,
  150, 172, 116, 34, 231, 173, 53, 133, 226, 249, 55, 232, 28, 117, 223, 110,
  71, 241, 26, 113, 29, 41, 197, 137, 111, 183, 98, 14, 170, 24, 190, 27,
  252, 86, 62, 75, 198, 210, 121, 32, 154, 219, 192, 254, 120, 205, 90, 244,
  31, 221, 168, 51, 136, 7, 199, 49, 177, 18, 16, 89, 39, 128, 236, 95,
  96, 81, 127, 169, 25, 181, 74, 13, 45, 229, 122, 159, 147, 201, 156, 239,
  160, 224, 59, 77, 174, 42, 245, 176, 200, 235, 187, 60, 131, 83, 153, 97,
  23, 43, 4, 126, 186, 119, 214, 38, 225, 105, 20, 99, 85, 33, 12, 125]

/-- Fuel-driven worker for `chunksOf` (structural recursion on the fuel so
that the kernel can evaluate it). -/
def chunksOfFuel (n : Nat) : Nat → List Nat → List (List Nat)
  | 0, _ => []
  | _, [] => []
  | fuel + 1, a :: rest => (a :: rest.take n) :: chunksOfFuel n fuel (rest.drop n)

/-- Split a byte string into chunks of `n + 1` bytes (the last chunk may be
shorter). `chunksOf 15` splits into AES blocks, `chunksOf 3` into words. -/
def chunksOf (n : Nat) (l : List Nat) : List (List Nat) :=
  chunksOfFuel n l.length l

/-- Multiplication by `x` in GF(2^8) modulo `x^8 + x^4 + x^3 + x + 1`. -/
def xtime (a : Nat) : Nat := ((2 * a) % 256) ^^^ (if 128 ≤ a then 27 else 0)

/-- Multiplication by 9 in GF(2^8). -/
def gmul9 (a : Nat) : Nat := xtime (xtime (xtime a)) ^^^ a

/-- Multiplication by 11 in GF(2^8). -/
def gmul11 (a : Nat) : Nat := xtime (xtime (xtime a)) ^^^ xtime a ^^^ a

/-- Multiplication by 13 in GF(2^8). -/
def gmul13 (a : Nat) : Nat := xtime (xtime (xtime a)) ^^^ xtime (xtime a) ^^^ a

/-- Multiplication by 14 in GF(2^8). -/
def gmul14 (a : Nat) : Nat :=
  xtime (xtime (xtime a)) ^^^ xtime (xtime a) ^^^ xtime a

/-- Substitute every byte through a table. -/
def subBytesWith (tbl : List Nat) (s : List Nat) : List Nat :=
  s.map (fun b => tbl.getD b 0)

/-- Rotate a 4-byte word left by one byte. -/
def rotWord (w : List Nat) : List Nat := w.drop 1 ++ w.take 1

/-- AES round constants `Rcon[i]` (first byte). -/
def rconVal (i : Nat) : Nat := [0, 1, 2, 4, 8, 16, 32, 64, 128, 27, 54].getD i 0

/-- One step of the AES-256 key expansion: append the next word. -/
def expandLoop (ws : List (List Nat)) : Nat → List (List Nat)
  | 0 => ws
  | n + 1 =>
    let i := ws.length
    let temp := ws.getLastD []
    let temp :=
      if i % 8 = 0 then
        xorBytes (subBytesWith sbox (rotWord temp)) [rconVal (i / 8), 0, 0, 0]
      else if i % 8 = 4 then subBytesWith sbox temp
      else temp
    expandLoop (ws ++ [xorBytes (ws.getD (i - 8) []) temp]) n

/-- AES-256 key schedule: 60 four-byte words from a 32-byte key. -/
def keySchedule (key : List Nat) : List (List Nat) :=
  expandLoop (chunksOf 3 key) 52

/-- The 16-byte round key for round `r` (words `4r .. 4r+3`). -/
def roundKey (ws : List (List Nat)) (r : Nat) : List Nat :=
  ((ws.drop (4 * r)).take 4).flatten

/-- InvShiftRows as an index permutation on the column-major flat state. -/
def invShiftRows (s : List Nat) : List Nat :=
  [0, 13, 10, 7, 4, 1, 14, 11, 8, 5, 2, 15, 12, 9, 6, 3].map
    (fun i => s.getD i 0)

/-- InvSubBytes: inverse S-box substitution. -/
def invSubBytes (s : List Nat) : List Nat := subBytesWith invSbox s

/-- InvMixColumns on a single 4-byte column. -/
def invMixColumn : List Nat → List Nat
  | [a0, a1, a2, a3] =>
    [gmul14 a0 ^^^ gmul11 a1 ^^^ gmul13 a2 ^^^ gmul9 a3,
     gmul9 a0 ^^^ gmul14 a1 ^^^ gmul11 a2 ^^^ gmul13 a3,
     gmul13 a0 ^^^ gmul9 a1 ^^^ gmul14 a2 ^^^ gmul11 a3,
     gmul11 a0 ^^^ gmul13 a1 ^^^ gmul9 a2 ^^^ gmul14 a3]
  | other => other

/-- InvMixColumns on the whole state. -/
def invMixColumns (s : List Nat) : List Nat :=
  ((chunksOf 3 s).map invMixColumn).flatten

/-- AES-256 single-block decryption (FIPS-197 InvCipher, Nr = 14). -/
def aes256DecryptBlock (key block : List Nat) : List Nat :=
  let ws := keySchedule key
  let s0 := xorBytes block (roundKey ws 14)
  let s := (List.range 13).foldl
    (fun s k =>
      invMixColumns (xorBytes (invSubBytes (invShiftRows s)) (roundKey ws (13 - k))))
    s0
  xorBytes (invSubBytes (invShiftRows s)) (roundKey ws 0)

/-- CBC-mode decryption of a block list given the block decryption
function and the previous ciphertext block (initially the IV). -/
def cbcDecryptWith (D : List Nat → List Nat) : List Nat → List (List Nat) → List (List Nat)
  | _, [] => []
  | prev, c :: cs => xorBytes (D c) prev :: cbcDecryptWith D c cs

/-- CBC-mode encryption (the reference encryption of the spec) given the
block encryption function and the previous ciphertext block (initially
the IV). -/
def cbcEncryptWith (E : List Nat → List Nat) : List Nat → List (List Nat) → List (List Nat)
  | _, [] => []
  | prev, p :: ps =>
    let c := E (xorBytes prev p)
    c :: cbcEncryptWith E c ps

/-! ## `decryptMessage` (index.ts) -/

/-- Errors thrown inside `decryptMessage` by Node's `crypto` / `Buffer`:
`createDecipheriv` rejects a key that is not 32 bytes, `final()` rejects a
ciphertext that is not block-aligned (auto-padding is off), and
`readUInt32BE(16)` rejects an unpadded plaintext shorter than 20 bytes. -/
inductive DecryptError where
  | invalidKey : DecryptError
  | wrongBlockLength : DecryptError
  | rangeError : DecryptError
deriving DecidableEq, Repr

/-- Big-endian 32-bit read at offset `i` (`Buffer.readUInt32BE(i)`); the
caller has already checked `i + 4 ≤ length`. -/
def be32At (l : List Nat) (i : Nat) : Nat :=
  l.getD i 0 * 16777216 + l.getD (i + 1) 0 * 65536 +
    l.getD (i + 2) 0 * 256 + l.getD (i + 3) 0

/-- The manual PKCS#7 strip `decrypted.slice(0, -pad)` where `pad` is the
last byte: JS `slice(0, -p)` keeps `max (length - p) 0` bytes for `p ≥ 1`
and zero bytes for `p = 0` (since `-0 = 0`); an empty buffer reads its last
byte as `undefined`, making the slice end `NaN`, which also yields an empty
buffer. -/
def unpadPkcs7 (decrypted : List Nat) : List Nat :=
  let pad := decrypted.getLastD 0
  if pad = 0 then [] else decrypted.take (decrypted.length - pad)

/-- Source `decryptMessage(encodingAESKey, encrypted)` from `index.ts`, with the
AES block primitive `blockDec : key → block → block` as an explicit
parameter: base64-decode `encodingAESKey + "="` to the 32-byte key, take
the first 16 key bytes as IV, AES-256-CBC-decrypt the base64-decoded
ciphertext with auto-padding off, strip PKCS#7 padding manually, read the
big-endian length at offset 16 and return bytes `[20, 20 + contentLen)`
(`Buffer.slice` clamps an out-of-range end silently). -/
def decryptMessageWith (blockDec : List Nat → List Nat → List Nat)
    (encodingAESKey encrypted : List Char) : Except DecryptError (List Nat) :=
  let key := b64decode (encodingAESKey ++ ['='])
  if key.length ≠ 32 then .error .invalidKey
  else
    let iv := key.take 16
    let ct := b64decode encrypted
    if ct.length % 16 ≠ 0 then .error .wrongBlockLength
    else
      let decrypted := (cbcDecryptWith (blockDec key) iv (chunksOf 15 ct)).flatten
      let unpadded := unpadPkcs7 decrypted
      if unpadded.length < 20 then .error .rangeError
      else
        let contentLen := be32At unpadded 16
        .ok ((unpadded.drop 20).take contentLen)

/-- Source `decryptMessage` with the real AES-256 block cipher plugged in. -/
def decryptMessage : List Char → List Char → Except DecryptError (List Nat) :=
  decryptMessageWith aes256DecryptBlock

/-- Big-endian 32-bit encoding of `n < 2^32`. -/
def be32 (n : Nat) : List Nat :=
  [n / 16777216 % 256, n / 65536 % 256, n / 256 % 256, n % 256]

/-- PKCS#7 padding to the 16-byte block size. -/
def pkcs7pad (l : List Nat) : List Nat :=
  let padLen := 16 - l.length % 16
  l ++ List.replicate padLen padLen

/-- The reference encryption of the spec (§8): AES-256-CBC-encrypt
`random16 ++ be32 (len content) ++ content ++ corpId`, PKCS#7-padded to the
block size, with `iv = key[0:16]`, then base64-encode. -/
def refEncrypt (blockEnc : List Nat → List Nat → List Nat) (key : List Nat)
    (random16 content corpId : List Nat) : List Char :=
  let plaintext := random16 ++ be32 content.length ++ content ++ corpId
  b64encode ((cbcEncryptWith (blockEnc key) (key.take 16)
    (chunksOf 15 (pkcs7pad plaintext))).flatten)

/-! ## Round-trip lemmas for the crypto framing -/

/-- Whether an `Except` result is an error (a thrown exception). -/
def isErr {ε α : Type} : Except ε α → Bool
  | .error _ => true
  | .ok _ => false

/-! ## `verifySignature` (index.ts) -/

/-- Source `verifySignature(token, timestamp, nonce, echostr, signature)` from
`index.ts`, with Node's `crypto.createHash("sha1") … digest("hex")`
pipeline abstracted as an explicit pure string map `sha1hex` (the source
uses it only as a deterministic string → hex-string function): sort the
four inputs (JS `Array.prototype.sort` default lexicographic order),
join with no separator, hash, and compare for exact equality with
`signature`. -/
def verifySignature (sha1hex : String → String)
    (token timestamp nonce echostr signature : String) : Bool :=
  signature == sha1hex (String.join
    (List.insertionSort (· ≤ ·) [token, timestamp, nonce, echostr]))

/-! ## The POST path of the webhook handler (index.ts) -/

/-- The parsed inner WeChat message (interface `WxMessage`),
restricted to the fields the POST path branches on; `Content` is `none`
when the XML field is absent. -/
structure WxMessage where
  FromUserName : String
  MsgType : String
  Content : Option String
deriving Repr, DecidableEq

/-- An HTTP response of the POST handler, together with whether the
dispatch collaborator (`dispatchReplyWithBufferedBlockDispatcher`) was
invoked. -/
structure PostOutcome where
  statusCode : Nat
  body : String
  dispatched : Bool
deriving Repr, DecidableEq

set_option linter.unusedVariables false in
/-- The POST branch of the webhook handler (index.ts, inside
`registerHttpRoute`), with its collaborators as explicit parameters:
`token`/`encodingAESKey` are the configured values (`""` models an
absent/falsy field — the source tests `!token || !encodingAESKey`);
`encryptField` is `parser.parse(body)?.xml?.Encrypt` (`none` when
absent, and the source's `!encryptedMsg` is also true for `""`);
`verify m` is `verifySignature(token, timestamp, nonce, m,
msg_signature)`; `decrypt m` is `decryptMessage(encodingAESKey, m)`
(`.error` = the call threw); `parseMsg` is `parseWxMessage` on the
decrypted XML; `dispatchOk` says whether the dispatch promise resolves
(`false` = it rejects — the source catches and logs either way, which is
why the result cannot depend on it). -/
def handlePost (token encodingAESKey : String) (encryptField : Option String)
    (verify : String → Bool) (decrypt : String → Except DecryptError String)
    (parseMsg : String → Option WxMessage) (dispatchOk : Bool) : PostOutcome :=
  if token = "" ∨ encodingAESKey = "" then ⟨200, "success", false⟩
  else
    match encryptField with
    | none => ⟨200, "success", false⟩
    | some m =>
      if m = "" then ⟨200, "success", false⟩
      else if verify m = false then ⟨200, "success", false⟩
      else
        match decrypt m with
        | .error _ => ⟨200, "success", false⟩
        | .ok decryptedXml =>
          match parseMsg decryptedXml with
          | none => ⟨200, "success", false⟩
          | some wxMsg =>
            if wxMsg.MsgType ≠ "text" ∨ wxMsg.Content = none ∨
                wxMsg.Content = some "" then ⟨200, "success", false⟩
            else ⟨200, "success", true⟩

/-- The success condition of the POST pipeline, computed the same way the
handler branches: a non-falsy `Encrypt` field whose signature verifies,
which decrypts, parses, and is a `text` message with non-empty content. -/
def pipelineOk (encryptField : Option String) (verify : String → Bool)
    (decrypt : String → Except DecryptError String)
    (parseMsg : String → Option WxMessage) : Bool :=
  match encryptField with
  | none => false
  | some m =>
    if m = "" then false
    else if verify m = false then false
    else
      match decrypt m with
      | .error _ => false
      | .ok xml =>
        match parseMsg xml with
        | none => false
        | some msg =>
          if msg.MsgType ≠ "text" ∨ msg.Content = none ∨
              msg.Content = some "" then false
          else true

/-! ## HttpConnectionPool statistics (connection-pool.ts) -/

/-- Source `PoolStats` (connection-pool.ts): request counters and the running
average latency. JS numbers are modelled as exact rationals; every value
in the statements below is a small integer, for which JS float
arithmetic is exact. -/
structure PoolStats where
  totalRequests : Nat
  successfulRequests : Nat
  failedRequests : Nat
  avgResponseTime : Rat
deriving Repr, DecidableEq

/-- The constructor's initial statistics. -/
def initialPoolStats : PoolStats :=
  { totalRequests := 0, successfulRequests := 0, failedRequests := 0,
    avgResponseTime := 0 }

/-- Source `updateAvgResponseTime(newTime)` (connection-pool.ts lines 116-124),
verbatim: `total` reads `this.stats.successfulRequests` at call time. -/
def updateAvgResponseTime (s : PoolStats) (newTime : Rat) : PoolStats :=
  let total := s.successfulRequests
  if total = 0 then { s with avgResponseTime := newTime }
  else { s with avgResponseTime :=
    (s.avgResponseTime * ((total : Rat) - 1) + newTime) / (total : Rat) }

/-- The statistics effect of one `request` call (connection-pool.ts lines
76-111): `totalRequests++` up front; on success (`some sample`, the
measured latency) `updateAvgResponseTime(sample)` and then
`successfulRequests++` — in that order, exactly as in the source; on
failure (`none`) only `failedRequests++`. -/
def requestStats (s : PoolStats) (outcome : Option Rat) : PoolStats :=
  let s1 := { s with totalRequests := s.totalRequests + 1 }
  match outcome with
  | some sample =>
    let s2 := updateAvgResponseTime s1 sample
    { s2 with successfulRequests := s2.successfulRequests + 1 }
  | none => { s1 with failedRequests := s1.failedRequests + 1 }

/-! ## CircuitBreaker (circuit-breaker.ts) -/

/-- Source `CircuitState` — the source's `"open"` is spelled `opened` (`open` is
reserved in Lean). -/
inductive CircuitState where
  | closed
  | opened
  | halfOpen
deriving Repr, DecidableEq

/-- The breaker's options and mutable state (circuit-breaker.ts). -/
structure CircuitBreaker where
  failureThreshold : Nat
  resetTimeout : Int
  halfOpenSuccessThreshold : Nat
  state : CircuitState
  failureCount : Nat
  lastFailureTime : Option Int
  halfOpenSuccess : Nat
deriving Repr, DecidableEq

/-- Source `reset()`. -/
def CircuitBreaker.reset (cb : CircuitBreaker) : CircuitBreaker :=
  { cb with
      state := .closed
      failureCount := 0
      lastFailureTime := none
      halfOpenSuccess := 0 }

/-- Source `getTimeUntilReset()` at time `now`: `null` unless the breaker is
open and `lastFailureTime` is truthy (non-null and nonzero). -/
def getTimeUntilReset (cb : CircuitBreaker) (now : Int) : Option Int :=
  match cb.lastFailureTime with
  | some t =>
    if cb.state = .opened ∧ t ≠ 0 then
      some (max 0 (cb.resetTimeout - (now - t)))
    else none
  | none => none

/-- Source `onSuccess()`: in half-open, bump the trial counter and fully reset
once it reaches the threshold; in every case zero `failureCount`. -/
def onSuccess (cb : CircuitBreaker) : CircuitBreaker :=
  let cb1 :=
    if cb.state = .halfOpen then
      let cb2 := { cb with halfOpenSuccess := cb.halfOpenSuccess + 1 }
      if cb2.halfOpenSuccessThreshold ≤ cb2.halfOpenSuccess then cb2.reset
      else cb2
    else cb
  { cb1 with failureCount := 0 }

/-- Source `onFailure()` at time `now`: bump `failureCount`, stamp
`lastFailureTime`, and open the breaker on a half-open failure or on
reaching the failure threshold. -/
def onFailure (cb : CircuitBreaker) (now : Int) : CircuitBreaker :=
  let cb1 := { cb with
      failureCount := cb.failureCount + 1
      lastFailureTime := some now }
  if cb1.state = .halfOpen then { cb1 with state := .opened }
  else if cb1.failureThreshold ≤ cb1.failureCount then
    { cb1 with state := .opened }
  else cb1

/-- The observable outcome of one `execute(fn)` call: either the call was
rejected with a `CircuitBreakerOpenError` carrying `timeUntilReset`
(and `fn` never ran), or `fn` ran with outcome `fnOk` and the breaker
applied the success/failure transition (the error being rethrown). The
resulting breaker state is carried in both cases. -/
inductive ExecResult where
  | rejected (timeUntilReset : Option Int) (cb : CircuitBreaker)
  | completed (fnOk : Bool) (cb : CircuitBreaker)
deriving Repr, DecidableEq

/-- Source `execute(fn)` (circuit-breaker.ts lines 43-69) at time `now`, with
the wrapped `fn`'s outcome as the boolean `fnOk`. The JS truthiness test
`this.lastFailureTime && …` is false for `null` and for `0`. -/
def execute (cb : CircuitBreaker) (now : Int) (fnOk : Bool) : ExecResult :=
  if cb.state = .opened then
    match cb.lastFailureTime with
    | some t =>
      if t ≠ 0 ∧ cb.resetTimeout < now - t then
        let cb1 : CircuitBreaker :=
          { cb with state := .halfOpen, halfOpenSuccess := 0 }
        if fnOk then .completed true (onSuccess cb1)
        else .completed false (onFailure cb1 now)
      else .rejected (getTimeUntilReset cb now) cb
    | none => .rejected (getTimeUntilReset cb now) cb
  else
    if fnOk then .completed true (onSuccess cb)
    else .completed false (onFailure cb now)

/-! ## RateLimiter (rate-limiter.ts) -/

/-- Source `RateLimitResult` (rate-limiter.ts): `waitTime`/`resetAt` are `none`
on the branches that do not set them. -/
structure RateLimitResult where
  allowed : Bool
  waitTime : Option Int
  remaining : Nat
  resetAt : Option Int
deriving Repr, DecidableEq

/-- Source `check(key)` (rate-limiter.ts lines 38-70) for a single key at time
`now`; `stored` is the timestamp array held in `this.requests` for that
key (`[]` when the key is absent). Returns the result and the new stored
array: on denial the map entry is NOT updated (the filtered array is
discarded and the old array kept); on admission the filtered array with
`now` pushed is stored back. `timestamps[0]` is modelled by `headI`,
whose default is reachable only when `maxRequests = 0`. -/
def check (windowMs : Int) (maxRequests : Nat) (stored : List Int)
    (now : Int) : RateLimitResult × List Int :=
  let windowStart := now - windowMs
  let timestamps := stored.filter (fun t => decide (windowStart < t))
  let count := timestamps.length
  if maxRequests ≤ count then
    (⟨false, some (timestamps.headI + windowMs - now), 0,
      some (timestamps.headI + windowMs)⟩, stored)
  else
    (⟨true, none, maxRequests - count - 1, some (now + windowMs)⟩,
      timestamps ++ [now])

/-- Fold `check` for one key over a sequence of call times, starting from
stored array `stored`; returns each call's `(time, allowed)` pair. -/
def rlRun (windowMs : Int) (maxRequests : Nat) (stored : List Int) :
    List Int → List (Int × Bool)
  | [] => []
  | t :: ts =>
    let r := check windowMs maxRequests stored t
    (t, r.1.allowed) :: rlRun windowMs maxRequests r.2 ts

/-- The admitted call times of a run. -/
def admittedTimes (r : List (Int × Bool)) : List Int :=
  (r.filter (fun p => p.2)).map (fun p => p.1)

/-- How many elements of `l` lie in the trailing window `(x, x + w]`. -/
def countWindow (w x : Int) (l : List Int) : Nat :=
  (l.filter (fun t => decide (x < t ∧ t ≤ x + w))).length

/-! ## MessageQueue retry processing (message-queue.ts `processItem`) -/

/-- Source `QueueStats` (message-queue.ts). -/
structure QueueStats where
  total : Nat
  success : Nat
  failed : Nat
  retries : Nat
deriving Repr, DecidableEq

/-- Source `processItem` iterated to quiescence for one item, structurally on
the remaining retry budget `left` (initially `maxRetries`, since items
are enqueued with `retries = 0`): `f k` is the outcome of the delivery
attempt made when the item's `retries` field equals `k` (`true` = the
`sendFn` promise resolves). Each step mirrors one `processItem` call
(message-queue.ts lines 125-154): attempt once; on success increment
`stats.success`; on failure with `retries < maxRetries` increment the
item's `retries` and `stats.retries`, back off, and re-insert at the
front of the queue (whence the item is processed next); on failure with
the budget exhausted increment `stats.failed` and push a ledger record
carrying the item's final `retries` value. Returns the updated
statistics, the failure ledger (as the list of recorded `retries`
values), and the number of delivery attempts made. -/
def processItemAux (f : Nat → Bool) :
    Nat → Nat → QueueStats → List Nat → QueueStats × List Nat × Nat
  | 0, retries, st, failed =>
    if f retries then ({ st with success := st.success + 1 }, failed, 1)
    else ({ st with failed := st.failed + 1 }, failed ++ [retries], 1)
  | left + 1, retries, st, failed =>
    if f retries then ({ st with success := st.success + 1 }, failed, 1)
    else
      let r := processItemAux f left (retries + 1)
        { st with retries := st.retries + 1 } failed
      (r.1, r.2.1, r.2.2 + 1)

/-- A freshly added item (`retries = 0`) processed to quiescence. -/
def processItem (maxRetries : Nat) (f : Nat → Bool) (st : QueueStats)
    (failed : List Nat) : QueueStats × List Nat × Nat :=
  processItemAux f maxRetries 0 st failed

/-! ## RequestCache (request-cache.ts) -/

/-- Source `CacheEntry` (request-cache.ts). -/
structure CacheEntry (T : Type) where
  data : T
  expiresAt : Int
  createdAt : Int
  hitCount : Nat
deriving Repr, DecidableEq

/-- The cache `Map` as an insertion-ordered association list. -/
structure RequestCache (T : Type) where
  cache : List (String × CacheEntry T)
deriving Repr, DecidableEq

/-- Source `get(key)` (request-cache.ts lines 161-172) at time `now`: a missing
entry returns `null`; an entry with `now > expiresAt` is deleted and
`null` returned; otherwise `hitCount` is incremented in place and the
stored data returned. -/
def RequestCache.get {T : Type} (c : RequestCache T) (now : Int)
    (key : String) : Option T × RequestCache T :=
  match c.cache.find? (fun p => p.1 == key) with
  | none => (none, c)
  | some p =>
    if p.2.expiresAt < now then
      (none, ⟨c.cache.filter (fun q => !(q.1 == key))⟩)
    else
      (some p.2.data,
        ⟨c.cache.map (fun q =>
          if q.1 == key then
            (q.1, { q.2 with hitCount := q.2.hitCount + 1 })
          else q)⟩)

/-! ## Verified properties and supporting lemmas -/

theorem b64Val_b64Char : ∀ n < 64, b64Val (b64Char n) = some n := by decide

theorem b64Val_eq : b64Val '=' = none := by decide

theorem b64Val_lt {c : Char} {n : Nat} (h : b64Val c = some n) : n < 64 := by
  simp only [b64Val] at h
  split_ifs at h <;> (try cases h) <;> omega

theorem sexToBytes_lt : ∀ s : List Nat, (∀ x ∈ s, x < 64) →
    ∀ y ∈ sexToBytes s, y < 256
  | s1 :: s2 :: s3 :: s4 :: rest => fun h y hy => by
      have h1 := h s1 (by simp)
      have h2 := h s2 (by simp)
      have h3 := h s3 (by simp)
      have h4 := h s4 (by simp)
      simp only [sexToBytes, List.mem_cons] at hy
      rcases hy with rfl | rfl | rfl | hy
      · omega
      · omega
      · omega
      · exact sexToBytes_lt rest (fun x hx => h x (by simp [hx])) y hy
  | [s1, s2] => fun h y hy => by
      have h1 := h s1 (by simp)
      have h2 := h s2 (by simp)
      simp only [sexToBytes, List.mem_cons, List.not_mem_nil, or_false] at hy
      subst hy; omega
  | [s1, s2, s3] => fun h y hy => by
      have h1 := h s1 (by simp)
      have h2 := h s2 (by simp)
      have h3 := h s3 (by simp)
      simp only [sexToBytes, List.mem_cons, List.not_mem_nil, or_false] at hy
      rcases hy with rfl | rfl <;> omega
  | [] => fun _ y hy => by simp [sexToBytes] at hy
  | [_] => fun _ y hy => by simp [sexToBytes] at hy

theorem b64decode_lt (s : List Char) : ∀ y ∈ b64decode s, y < 256 := by
  refine sexToBytes_lt _ ?_
  intro x hx
  simp only [List.mem_filterMap] at hx
  obtain ⟨c, _, hc⟩ := hx
  exact b64Val_lt hc

theorem b64decode_b64encode : ∀ bs : List Nat, (∀ x ∈ bs, x < 256) →
    b64decode (b64encode bs) = bs
  | a :: b :: c :: rest => fun h => by
      have ha := h a (by simp)
      have hb := h b (by simp)
      have hc := h c (by simp)
      have e1 : b64Val (b64Char (a / 4)) = some (a / 4) :=
        b64Val_b64Char _ (by omega)
      have e2 : b64Val (b64Char ((a % 4) * 16 + b / 16)) =
          some ((a % 4) * 16 + b / 16) := b64Val_b64Char _ (by omega)
      have e3 : b64Val (b64Char ((b % 16) * 4 + c / 64)) =
          some ((b % 16) * 4 + c / 64) := b64Val_b64Char _ (by omega)
      have e4 : b64Val (b64Char (c % 64)) = some (c % 64) :=
        b64Val_b64Char _ (by omega)
      have ihr := b64decode_b64encode rest (fun x hx => h x (by simp [hx]))
      unfold b64decode at ihr ⊢
      simp only [b64encode, List.filterMap_cons, e1, e2, e3, e4, sexToBytes,
        List.cons.injEq]
      exact ⟨by omega, by omega, by omega, ihr⟩
  | [a, b] => fun h => by
      have ha := h a (by simp)
      have hb := h b (by simp)
      have e1 : b64Val (b64Char (a / 4)) = some (a / 4) :=
        b64Val_b64Char _ (by omega)
      have e2 : b64Val (b64Char ((a % 4) * 16 + b / 16)) =
          some ((a % 4) * 16 + b / 16) := b64Val_b64Char _ (by omega)
      have e3 : b64Val (b64Char ((b % 16) * 4)) = some ((b % 16) * 4) :=
        b64Val_b64Char _ (by omega)
      unfold b64decode
      simp only [b64encode, List.filterMap_cons, e1, e2, e3, b64Val_eq,
        List.filterMap_nil, sexToBytes, List.cons.injEq, and_true]
      exact ⟨by omega, by omega⟩
  | [a] => fun h => by
      have ha := h a (by simp)
      have e1 : b64Val (b64Char (a / 4)) = some (a / 4) :=
        b64Val_b64Char _ (by omega)
      have e2 : b64Val (b64Char ((a % 4) * 16)) = some ((a % 4) * 16) :=
        b64Val_b64Char _ (by omega)
      unfold b64decode
      simp only [b64encode, List.filterMap_cons, e1, e2, b64Val_eq,
        List.filterMap_nil, sexToBytes, List.cons.injEq, and_true]
      omega
  | [] => fun _ => rfl

theorem chunksOfFuel_nil (n : Nat) : ∀ f, chunksOfFuel n f [] = []
  | 0 => rfl
  | _ + 1 => rfl

theorem chunksOfFuel_congr (n : Nat) : ∀ (f1 f2 : Nat) (l : List Nat),
    l.length ≤ f1 → l.length ≤ f2 → chunksOfFuel n f1 l = chunksOfFuel n f2 l
  | f1, f2, [] => fun _ _ => by rw [chunksOfFuel_nil, chunksOfFuel_nil]
  | f1 + 1, f2 + 1, a :: rest => fun h1 h2 => by
      simp only [List.length_cons] at h1 h2
      simp only [chunksOfFuel, List.cons.injEq, true_and]
      exact chunksOfFuel_congr n f1 f2 (rest.drop n)
        (by simp only [List.length_drop]; omega)
        (by simp only [List.length_drop]; omega)
  | 0, _, a :: rest => fun h _ => by simp at h
  | _ + 1, 0, a :: rest => fun _ h => by simp at h

theorem chunksOf_nil (n : Nat) : chunksOf n [] = [] := rfl

theorem chunksOf_cons (n : Nat) (a : Nat) (rest : List Nat) :
    chunksOf n (a :: rest) = (a :: rest.take n) :: chunksOf n (rest.drop n) := by
  simp only [chunksOf, List.length_cons, chunksOfFuel, List.cons.injEq, true_and]
  exact chunksOfFuel_congr n rest.length (rest.drop n).length (rest.drop n)
    (by simp [List.length_drop]) (le_refl _)

theorem xor_lt_256 {m k : Nat} (hm : m < 256) (hk : k < 256) : m ^^^ k < 256 := by
  have h : m ^^^ k < 2 ^ 8 := Nat.xor_lt_two_pow (by omega) (by omega)
  omega

theorem xorBytes_length (a b : List Nat) :
    (xorBytes a b).length = min a.length b.length := List.length_zipWith _ a b

theorem xorBytes_lt : ∀ (a b : List Nat), (∀ x ∈ a, x < 256) → (∀ x ∈ b, x < 256) →
    ∀ y ∈ xorBytes a b, y < 256
  | [], _ => fun _ _ y hy => by simp [xorBytes] at hy
  | _ :: _, [] => fun _ _ y hy => by simp [xorBytes] at hy
  | x :: xs, z :: zs => fun ha hb y hy => by
      simp only [xorBytes, List.zipWith_cons_cons, List.mem_cons] at hy
      rcases hy with rfl | hy
      · exact xor_lt_256 (ha x (by simp)) (hb z (by simp))
      · exact xorBytes_lt xs zs (fun u hu => ha u (by simp [hu]))
          (fun u hu => hb u (by simp [hu])) y hy

theorem xorBytes_cancel : ∀ (a b : List Nat), a.length = b.length →
    xorBytes (xorBytes a b) a = b
  | [], [] => fun _ => rfl
  | [], _ :: _ => fun h => by simp at h
  | _ :: _, [] => fun h => by simp at h
  | x :: xs, z :: zs => fun h => by
      simp only [List.length_cons, Nat.add_right_cancel_iff] at h
      simp only [xorBytes, List.zipWith_cons_cons, List.cons.injEq]
      refine ⟨?_, xorBytes_cancel xs zs h⟩
      rw [Nat.xor_comm x z]
      exact Nat.xor_cancel_right x z

theorem cbcEncryptWith_props (E : List Nat → List Nat)
    (hE : ∀ b, b.length = 16 → (∀ x ∈ b, x < 256) →
      (E b).length = 16 ∧ ∀ x ∈ E b, x < 256) :
    ∀ (blocks : List (List Nat)) (prev : List Nat),
      prev.length = 16 → (∀ x ∈ prev, x < 256) →
      (∀ b ∈ blocks, b.length = 16 ∧ ∀ x ∈ b, x < 256) →
      ∀ c ∈ cbcEncryptWith E prev blocks, c.length = 16 ∧ ∀ x ∈ c, x < 256
  | [], _ => fun _ _ _ c hc => by simp [cbcEncryptWith] at hc
  | p :: ps, prev => fun hp hpb hbl c hc => by
      obtain ⟨hpl, hpbb⟩ := hbl p (by simp)
      have hxlen : (xorBytes prev p).length = 16 := by
        rw [xorBytes_length, hp, hpl]; simp
      have hxlt : ∀ x ∈ xorBytes prev p, x < 256 := xorBytes_lt prev p hpb hpbb
      have hEc := hE (xorBytes prev p) hxlen hxlt
      simp only [cbcEncryptWith, List.mem_cons] at hc
      rcases hc with rfl | hc
      · exact hEc
      · exact cbcEncryptWith_props E hE ps _ hEc.1 hEc.2
          (fun b hb => hbl b (by simp [hb])) c hc

theorem cbcDecryptWith_cbcEncryptWith (E D : List Nat → List Nat)
    (hE : ∀ b, b.length = 16 → (∀ x ∈ b, x < 256) →
      (E b).length = 16 ∧ ∀ x ∈ E b, x < 256)
    (hED : ∀ b, b.length = 16 → (∀ x ∈ b, x < 256) → D (E b) = b) :
    ∀ (blocks : List (List Nat)) (prev : List Nat),
      prev.length = 16 → (∀ x ∈ prev, x < 256) →
      (∀ b ∈ blocks, b.length = 16 ∧ ∀ x ∈ b, x < 256) →
      cbcDecryptWith D prev (cbcEncryptWith E prev blocks) = blocks
  | [], _ => fun _ _ _ => rfl
  | p :: ps, prev => fun hp hpb hbl => by
      obtain ⟨hpl, hpbb⟩ := hbl p (by simp)
      have hxlen : (xorBytes prev p).length = 16 := by
        rw [xorBytes_length, hp, hpl]; simp
      have hxlt : ∀ x ∈ xorBytes prev p, x < 256 := xorBytes_lt prev p hpb hpbb
      have hEc := hE (xorBytes prev p) hxlen hxlt
      have hD : D (E (xorBytes prev p)) = xorBytes prev p := hED _ hxlen hxlt
      simp only [cbcEncryptWith, cbcDecryptWith, List.cons.injEq]
      refine ⟨?_, cbcDecryptWith_cbcEncryptWith E D hE hED ps _ hEc.1 hEc.2
        (fun b hb => hbl b (by simp [hb]))⟩
      rw [hD]
      exact xorBytes_cancel prev p (by rw [hp, hpl])

theorem chunksOf_flatten_blocks : ∀ (blocks : List (List Nat)),
    (∀ b ∈ blocks, b.length = 16) → chunksOf 15 blocks.flatten = blocks
  | [] => fun _ => rfl
  | b :: bs => fun h => by
      have hb := h b (by simp)
      obtain ⟨a, t, rfl⟩ : ∃ a t, b = a :: t := by
        cases b with
        | nil => simp at hb
        | cons a t => exact ⟨a, t, rfl⟩
      have ht : t.length = 15 := by simpa using hb
      simp only [List.flatten_cons, List.cons_append]
      rw [chunksOf_cons]
      have h1 : (t ++ bs.flatten).take 15 = t := by
        have := List.take_left t bs.flatten
        rwa [ht] at this
      have h2 : (t ++ bs.flatten).drop 15 = bs.flatten := by
        have := List.drop_left t bs.flatten
        rwa [ht] at this
      rw [h1, h2, chunksOf_flatten_blocks bs (fun x hx => h x (by simp [hx]))]

theorem flatten_chunksOf (n : Nat) : ∀ l : List Nat, (chunksOf n l).flatten = l
  | [] => rfl
  | a :: rest => by
      rw [chunksOf_cons]
      simp only [List.flatten_cons, List.cons_append, List.cons.injEq, true_and]
      rw [flatten_chunksOf n (rest.drop n)]
      exact List.take_append_drop n rest
termination_by l => l.length
decreasing_by simp [List.length_drop]; omega

theorem chunksOf15_blocks : ∀ (l : List Nat), l.length % 16 = 0 →
    ∀ b ∈ chunksOf 15 l, b.length = 16
  | [] => fun _ b hb => by rw [chunksOf_nil] at hb; simp at hb
  | a :: rest => fun h b hb => by
      rw [chunksOf_cons] at hb
      simp only [List.mem_cons] at hb
      have hlen : rest.length % 16 = 15 := by
        simp only [List.length_cons] at h; omega
      rcases hb with rfl | hb
      · simp only [List.length_cons, List.length_take]
        omega
      · refine chunksOf15_blocks (rest.drop 15) ?_ b hb
        simp only [List.length_drop]
        omega
termination_by l => l.length
decreasing_by simp [List.length_drop]; omega

theorem chunksOf_subset : ∀ (l b : List Nat), b ∈ chunksOf 15 l → ∀ x ∈ b, x ∈ l
  | [] => fun b hb => by rw [chunksOf_nil] at hb; simp at hb
  | a :: rest => fun b hb x hx => by
      rw [chunksOf_cons] at hb
      simp only [List.mem_cons] at hb
      rcases hb with rfl | hb
      · simp only [List.mem_cons] at hx
        rcases hx with rfl | hx
        · simp
        · simp [List.take_subset 15 rest hx]
      · have := chunksOf_subset (rest.drop 15) b hb x hx
        simp [List.drop_subset 15 rest this]
termination_by l => l.length
decreasing_by simp [List.length_drop]; omega

theorem flatten_lt (blocks : List (List Nat))
    (h : ∀ b ∈ blocks, ∀ x ∈ b, x < 256) : ∀ x ∈ blocks.flatten, x < 256 := by
  intro x hx
  simp only [List.mem_flatten] at hx
  obtain ⟨b, hb, hxb⟩ := hx
  exact h b hb x hxb

theorem flatten_length_mod (blocks : List (List Nat))
    (h : ∀ b ∈ blocks, b.length = 16) : blocks.flatten.length % 16 = 0 := by
  induction blocks with
  | nil => rfl
  | cons b bs ih =>
      simp only [List.flatten_cons, List.length_append, h b (by simp)]
      have := ih (fun x hx => h x (by simp [hx]))
      omega

theorem getLastD_append_replicate (l : List Nat) (p : Nat) (hp : 1 ≤ p) :
    (l ++ List.replicate p p).getLastD 0 = p := by
  obtain ⟨q, rfl⟩ : ∃ q, p = q + 1 := ⟨p - 1, by omega⟩
  rw [List.getLastD_eq_getLast?, List.replicate_succ', ← List.append_assoc,
    List.getLast?_concat]
  rfl

theorem unpadPkcs7_pkcs7pad (l : List Nat) : unpadPkcs7 (pkcs7pad l) = l := by
  unfold pkcs7pad unpadPkcs7
  rw [getLastD_append_replicate _ _ (by omega)]
  rw [if_neg (by omega : ¬ (16 - l.length % 16 = 0))]
  have hlen : (l ++ List.replicate (16 - l.length % 16) (16 - l.length % 16)).length
      = l.length + (16 - l.length % 16) := by simp
  rw [hlen]
  have h2 : l.length + (16 - l.length % 16) - (16 - l.length % 16) = l.length := by
    omega
  rw [h2]
  have := List.take_left l (List.replicate (16 - l.length % 16) (16 - l.length % 16))
  exact this

theorem pkcs7pad_length_mod (l : List Nat) : (pkcs7pad l).length % 16 = 0 := by
  simp only [pkcs7pad, List.length_append, List.length_replicate]
  omega

theorem pkcs7pad_lt (l : List Nat) (h : ∀ x ∈ l, x < 256) :
    ∀ x ∈ pkcs7pad l, x < 256 := by
  intro x hx
  simp only [pkcs7pad, List.mem_append, List.mem_replicate] at hx
  rcases hx with hx | ⟨_, rfl⟩
  · exact h x hx
  · omega

theorem be32_lt (n : Nat) : ∀ x ∈ be32 n, x < 256 := by
  intro x hx
  simp only [be32, List.mem_cons, List.not_mem_nil, or_false] at hx
  rcases hx with rfl | rfl | rfl | rfl <;> omega

theorem be32_length (n : Nat) : (be32 n).length = 4 := rfl

theorem be32At_cons (b0 b1 b2 b3 : Nat) (tail : List Nat) :
    be32At (b0 :: b1 :: b2 :: b3 :: tail) 0 =
      b0 * 16777216 + b1 * 65536 + b2 * 256 + b3 := rfl

theorem be32At_append16 (random16 rest : List Nat) (hr : random16.length = 16) :
    be32At (random16 ++ rest) 16 = be32At rest 0 := by
  simp only [be32At]
  rw [List.getD_append_right _ _ _ _ (by omega),
    List.getD_append_right _ _ _ _ (by omega),
    List.getD_append_right _ _ _ _ (by omega),
    List.getD_append_right _ _ _ _ (by omega), hr]

theorem layout_be32At (random16 content corpId : List Nat)
    (hr : random16.length = 16) (hclen : content.length < 4294967296) :
    be32At (random16 ++ be32 content.length ++ content ++ corpId) 16 =
      content.length := by
  rw [List.append_assoc, List.append_assoc, be32At_append16 _ _ hr]
  simp only [be32, List.cons_append, List.nil_append]
  rw [be32At_cons]
  omega

theorem layout_drop_take (random16 content corpId : List Nat)
    (hr : random16.length = 16) :
    ((random16 ++ be32 content.length ++ content ++ corpId).drop 20).take
      content.length = content := by
  have h20 : (random16 ++ be32 content.length).length = 20 := by
    simp [be32, hr]
  rw [List.append_assoc]
  have hd := List.drop_left (random16 ++ be32 content.length) (content ++ corpId)
  rw [h20] at hd
  rw [hd]
  exact List.take_left content corpId

/-- Claim C2: for every 32-byte key obtained by base64-decoding
`encodingAESKey + "="`, every content byte string, and every corpId
suffix, applying `decryptMessage` to the base64 encoding of the
AES-256-CBC encryption (iv = first 16 bytes of the key) of
`random16 ++ be32 (len content) ++ content ++ corpId`, PKCS#7-padded to
the block size, returns exactly `content` (strings being modelled at the
UTF-8 byte level). The AES-256 block cipher under the fixed key is an
arbitrary pair `(E, D)` of mutually inverse, length- and
byte-range-preserving 16-byte block maps — exactly the properties
guaranteed by FIPS-197 for `aes-256-cbc`'s block primitive — so the
statement instantiates to the real cipher. -/
theorem C2_decryptMessage_roundtrip
    (E D : List Nat → List Nat → List Nat) (keyStr : List Char)
    (random16 content corpId : List Nat)
    (hkey : (b64decode (keyStr ++ ['='])).length = 32)
    (hE : ∀ b : List Nat, b.length = 16 → (∀ x ∈ b, x < 256) →
      (E (b64decode (keyStr ++ ['='])) b).length = 16 ∧
        ∀ x ∈ E (b64decode (keyStr ++ ['='])) b, x < 256)
    (hED : ∀ b : List Nat, b.length = 16 → (∀ x ∈ b, x < 256) →
      D (b64decode (keyStr ++ ['='])) (E (b64decode (keyStr ++ ['='])) b) = b)
    (hr : random16.length = 16) (hrb : ∀ x ∈ random16, x < 256)
    (hcb : ∀ x ∈ content, x < 256) (hcob : ∀ x ∈ corpId, x < 256)
    (hclen : content.length < 4294967296) :
    decryptMessageWith D keyStr
      (refEncrypt E (b64decode (keyStr ++ ['='])) random16 content corpId) =
      .ok content := by
  have hkeyb : ∀ x ∈ b64decode (keyStr ++ ['=']), x < 256 := b64decode_lt _
  have hivlen : ((b64decode (keyStr ++ ['='])).take 16).length = 16 := by
    simp [List.length_take, hkey]
  have hivb : ∀ x ∈ (b64decode (keyStr ++ ['='])).take 16, x < 256 :=
    fun x hx => hkeyb x (List.take_subset _ _ hx)
  have hptb : ∀ x ∈ random16 ++ be32 content.length ++ content ++ corpId,
      x < 256 := by
    intro x hx
    simp only [List.mem_append] at hx
    rcases hx with ((hx | hx) | hx) | hx
    · exact hrb x hx
    · exact be32_lt _ x hx
    · exact hcb x hx
    · exact hcob x hx
  have hpadb := pkcs7pad_lt _ hptb
  have hpadmod :=
    pkcs7pad_length_mod (random16 ++ be32 content.length ++ content ++ corpId)
  have hblocks : ∀ b ∈ chunksOf 15
      (pkcs7pad (random16 ++ be32 content.length ++ content ++ corpId)),
      b.length = 16 ∧ ∀ x ∈ b, x < 256 :=
    fun b hb => ⟨chunksOf15_blocks _ hpadmod b hb,
      fun x hx => hpadb x (chunksOf_subset _ b hb x hx)⟩
  have hctblocks := cbcEncryptWith_props (E (b64decode (keyStr ++ ['='])))
    hE _ ((b64decode (keyStr ++ ['='])).take 16) hivlen hivb hblocks
  have hflatb : ∀ x ∈ (cbcEncryptWith (E (b64decode (keyStr ++ ['='])))
      ((b64decode (keyStr ++ ['='])).take 16)
      (chunksOf 15 (pkcs7pad
        (random16 ++ be32 content.length ++ content ++ corpId)))).flatten,
      x < 256 := flatten_lt _ (fun b hb => (hctblocks b hb).2)
  have hmod : (cbcEncryptWith (E (b64decode (keyStr ++ ['='])))
      ((b64decode (keyStr ++ ['='])).take 16)
      (chunksOf 15 (pkcs7pad
        (random16 ++ be32 content.length ++ content ++ corpId)))).flatten.length
      % 16 = 0 := flatten_length_mod _ (fun b hb => (hctblocks b hb).1)
  have hptlen : ¬ ((random16 ++ be32 content.length ++ content ++
      corpId).length < 20) := by
    simp only [List.length_append, be32_length, hr]
    omega
  simp only [decryptMessageWith, refEncrypt]
  rw [if_neg (show ¬ (b64decode (keyStr ++ ['='])).length ≠ 32 by omega)]
  rw [b64decode_b64encode _ hflatb]
  rw [if_neg (show ¬ _ % 16 ≠ 0 by omega)]
  rw [chunksOf_flatten_blocks _ (fun b hb => (hctblocks b hb).1)]
  rw [cbcDecryptWith_cbcEncryptWith _ _ hE hED _ _ hivlen hivb hblocks]
  rw [flatten_chunksOf]
  rw [unpadPkcs7_pkcs7pad]
  rw [if_neg hptlen]
  rw [layout_be32At random16 content corpId hr hclen]
  rw [layout_drop_take random16 content corpId hr]

/-- Witness for C2: the round trip evaluated with a concrete identity
block-cipher pair on a concrete key string, content `[65]` and empty
corpId. -/
theorem C2_witness :
    decryptMessageWith (fun _ b => b)
      "ABCDEFGHIJKLMNOPQRSTUVWXYZabcdefghijklmnopq".data
      (refEncrypt (fun _ b => b)
        (b64decode ("ABCDEFGHIJKLMNOPQRSTUVWXYZabcdefghijklmnopq".data ++ ['=']))
        (List.range 16) [65] []) = .ok [65] :=
  C2_decryptMessage_roundtrip (fun _ b => b) (fun _ b => b)
    "ABCDEFGHIJKLMNOPQRSTUVWXYZabcdefghijklmnopq".data
    (List.range 16) [65] []
    (by decide)
    (fun b hl hb => ⟨hl, hb⟩)
    (fun b _ _ => rfl)
    (by decide) (by decide) (by decide) (by simp) (by decide)

/-- Claim C3, amended: `decryptMessage` raises an error exactly when the
base64-decoded key is not 32 bytes, the base64-decoded ciphertext is not
16-byte aligned, or the unpadded decrypted plaintext is shorter than 20
bytes. Malformed base64 never raises by itself (Node's decoder skips
invalid characters), and an out-of-range `contentLength` does not raise
either — `Buffer.slice` silently truncates the returned content. -/
theorem C3_decryptMessage_error_characterization (keyStr encrypted : List Char) :
    isErr (decryptMessage keyStr encrypted) = true ↔
      ((b64decode (keyStr ++ ['='])).length ≠ 32 ∨
       (b64decode encrypted).length % 16 ≠ 0 ∨
       (unpadPkcs7 ((cbcDecryptWith
          (aes256DecryptBlock (b64decode (keyStr ++ ['='])))
          ((b64decode (keyStr ++ ['='])).take 16)
          (chunksOf 15 (b64decode encrypted))).flatten)).length < 20) := by
  simp only [decryptMessage, decryptMessageWith]
  split_ifs with h1 h2 h3 <;> simp_all [isErr]

set_option maxRecDepth 100000 in
/-- Counterexample to claim C3 as stated: a well-formed base64 ciphertext whose
decrypted, unpadded plaintext is 28 bytes long but declares
`contentLength = 1000` (so `20 + contentLength` far exceeds the unpadded
length). The claim requires `decryptMessage` to raise; instead it
silently returns the 8 truncated content bytes `"ABCDEFGH"`. -/
theorem C3_out_of_range_contentLength_returns_ok :
    decryptMessage
      "ABCDEFGHIJKLMNOPQRSTUVWXYZabcdefghijklmnopq".data
      "J4SS5aM8od/0sMk5pFW6hQbZ9JikH+Srq+bgivhUmlg=".data =
      Except.ok [65, 66, 67, 68, 69, 70, 71, 72] ∧
    be32At (unpadPkcs7 ((cbcDecryptWith
      (aes256DecryptBlock
        (b64decode ("ABCDEFGHIJKLMNOPQRSTUVWXYZabcdefghijklmnopq".data ++ ['='])))
      ((b64decode ("ABCDEFGHIJKLMNOPQRSTUVWXYZabcdefghijklmnopq".data ++ ['='])).take 16)
      (chunksOf 15 (b64decode
        "J4SS5aM8od/0sMk5pFW6hQbZ9JikH+Srq+bgivhUmlg=".data))).flatten)) 16
      = 1000 ∧
    (unpadPkcs7 ((cbcDecryptWith
      (aes256DecryptBlock
        (b64decode ("ABCDEFGHIJKLMNOPQRSTUVWXYZabcdefghijklmnopq".data ++ ['='])))
      ((b64decode ("ABCDEFGHIJKLMNOPQRSTUVWXYZabcdefghijklmnopq".data ++ ['='])).take 16)
      (chunksOf 15 (b64decode
        "J4SS5aM8od/0sMk5pFW6hQbZ9JikH+Srq+bgivhUmlg=".data))).flatten)).length
      = 28 := by
  refine ⟨?_, ?_, ?_⟩ <;> rfl

/-- Claim C8: `verifySignature` is a deterministic pure function (it is a
Lean function of its five arguments) and its result is invariant under
every permutation of the four inputs token/timestamp/nonce/payload,
because it sorts them before concatenating and hashing — for any
`sha1hex` whatsoever. -/
theorem C8_verifySignature_permutation_invariant
    (sha1hex : String → String) (signature : String)
    (t1 t2 t3 t4 u1 u2 u3 u4 : String)
    (hperm : [u1, u2, u3, u4].Perm [t1, t2, t3, t4]) :
    verifySignature sha1hex u1 u2 u3 u4 signature =
      verifySignature sha1hex t1 t2 t3 t4 signature := by
  unfold verifySignature
  have hs1 : List.Sorted (· ≤ ·) (List.insertionSort (· ≤ ·) [u1, u2, u3, u4]) :=
    List.sorted_insertionSort _ _
  have hs2 : List.Sorted (· ≤ ·) (List.insertionSort (· ≤ ·) [t1, t2, t3, t4]) :=
    List.sorted_insertionSort _ _
  have hp : (List.insertionSort (· ≤ ·) [u1, u2, u3, u4]).Perm
      (List.insertionSort (· ≤ ·) [t1, t2, t3, t4]) :=
    ((List.perm_insertionSort _ _).trans hperm).trans
      (List.perm_insertionSort _ _).symm
  rw [List.eq_of_perm_of_sorted hp hs1 hs2]

/-- Witness for C8: a concrete permuted call. -/
theorem C8_witness :
    verifySignature id "b" "a" "c" "d" "x" =
      verifySignature id "a" "b" "c" "d" "x" :=
  C8_verifySignature_permutation_invariant id "x" "a" "b" "c" "d"
    "b" "a" "c" "d" (by decide)

theorem handlePost_eq (token encodingAESKey : String)
    (encryptField : Option String) (verify : String → Bool)
    (decrypt : String → Except DecryptError String)
    (parseMsg : String → Option WxMessage) (dispatchOk : Bool)
    (htoken : token ≠ "") (hkey : encodingAESKey ≠ "") :
    handlePost token encodingAESKey encryptField verify decrypt parseMsg
      dispatchOk =
      ⟨200, "success", pipelineOk encryptField verify decrypt parseMsg⟩ := by
  unfold handlePost pipelineOk
  rw [if_neg (by simp [htoken, hkey])]
  cases encryptField with
  | none => rfl
  | some m =>
    dsimp only
    split_ifs with h1 h2
    · rfl
    · rfl
    · cases decrypt m with
      | error e => rfl
      | ok xml =>
        dsimp only
        cases parseMsg xml with
        | none => rfl
        | some msg =>
          dsimp only
          split_ifs with h3
          · rfl
          · rfl

theorem pipelineOk_iff (encryptField : Option String) (verify : String → Bool)
    (decrypt : String → Except DecryptError String)
    (parseMsg : String → Option WxMessage) :
    pipelineOk encryptField verify decrypt parseMsg = true ↔
      (∃ m xml msg, encryptField = some m ∧ m ≠ "" ∧ verify m = true ∧
        decrypt m = .ok xml ∧ parseMsg xml = some msg ∧
        msg.MsgType = "text" ∧ ∃ c, msg.Content = some c ∧ c ≠ "") := by
  unfold pipelineOk
  cases encryptField with
  | none => simp
  | some m =>
    dsimp only
    by_cases h1 : m = ""
    · subst h1; simp
    · rw [if_neg h1]
      by_cases h2 : verify m = false
      · simp [h1, h2]
      · rw [if_neg h2]
        have h2t : verify m = true := eq_true_of_ne_false h2
        cases hdec : decrypt m with
        | error e => simp [h1, h2t, hdec]
        | ok xml =>
          dsimp only
          cases hparse : parseMsg xml with
          | none => simp [h1, h2t, hdec, hparse]
          | some msg =>
            dsimp only
            by_cases h3 : msg.MsgType ≠ "text" ∨ msg.Content = none ∨
                msg.Content = some ""
            · rw [if_pos h3]
              simp only [Bool.false_eq_true, false_iff]
              push_neg
              intro m2 xml2 msg2 hm2 _ _ hdec2 hparse2 htext c hc
              cases hm2
              rw [hdec] at hdec2
              cases hdec2
              rw [hparse] at hparse2
              cases hparse2
              rcases h3 with h | h | h
              · exact absurd htext h
              · rw [h] at hc; cases hc
              · rw [h] at hc
                cases hc
                simp
            · rw [if_neg h3]
              push_neg at h3
              obtain ⟨htext, hcnone, hcempty⟩ := h3
              simp only [true_iff]
              obtain ⟨c, hc⟩ : ∃ c, msg.Content = some c := by
                cases hcc : msg.Content with
                | none => exact absurd hcc hcnone
                | some c => exact ⟨c, rfl⟩
              exact ⟨m, xml, msg, rfl, h1, eq_true_of_ne_false h2, hdec,
                hparse, htext, c, hc,
                fun hce => hcempty (by rw [hc, hce])⟩

/-- Claim C1: with `token` and `encodingAESKey` configured, every POST
request is answered with HTTP 200 and literal body `"success"`,
independently of the dispatch outcome; and the dispatch collaborator
runs exactly when the whole pipeline succeeds -- so in each failure case
of the claim (missing/empty `Encrypt`, failed signature check, failed
decryption, unparsable inner XML, non-`text` type or empty `Content`)
dispatch is never invoked, while a dispatch error still yields
200/"success". -/
theorem C1_post_always_success_and_gates_dispatch
    (token encodingAESKey : String) (encryptField : Option String)
    (verify : String → Bool) (decrypt : String → Except DecryptError String)
    (parseMsg : String → Option WxMessage) (dispatchOk : Bool)
    (htoken : token ≠ "") (hkey : encodingAESKey ≠ "") :
    (handlePost token encodingAESKey encryptField verify decrypt parseMsg
        dispatchOk).statusCode = 200 ∧
    (handlePost token encodingAESKey encryptField verify decrypt parseMsg
        dispatchOk).body = "success" ∧
    (handlePost token encodingAESKey encryptField verify decrypt parseMsg
        dispatchOk =
      handlePost token encodingAESKey encryptField verify decrypt parseMsg
        true) ∧
    ((handlePost token encodingAESKey encryptField verify decrypt parseMsg
        dispatchOk).dispatched = true ↔
      (∃ m xml msg, encryptField = some m ∧ m ≠ "" ∧ verify m = true ∧
        decrypt m = .ok xml ∧ parseMsg xml = some msg ∧
        msg.MsgType = "text" ∧ ∃ c, msg.Content = some c ∧ c ≠ "")) := by
  rw [handlePost_eq token encodingAESKey encryptField verify decrypt parseMsg
    dispatchOk htoken hkey,
    handlePost_eq token encodingAESKey encryptField verify decrypt parseMsg
    true htoken hkey]
  exact ⟨rfl, rfl, rfl, pipelineOk_iff encryptField verify decrypt parseMsg⟩

/-- Witness for C1: a concrete successful pipeline (everything checks
out, dispatch rejects) still answers 200/"success" with dispatch run. -/
theorem C1_witness :
    (handlePost "tok" "key" (some "enc") (fun _ => true)
        (fun _ => .ok "<xml/>")
        (fun _ => some ⟨"u", "text", some "hi"⟩) false).statusCode = 200 ∧
    (handlePost "tok" "key" (some "enc") (fun _ => true)
        (fun _ => .ok "<xml/>")
        (fun _ => some ⟨"u", "text", some "hi"⟩) false).body = "success" ∧
    (handlePost "tok" "key" (some "enc") (fun _ => true)
        (fun _ => .ok "<xml/>")
        (fun _ => some ⟨"u", "text", some "hi"⟩) false).dispatched = true := by
  have h := C1_post_always_success_and_gates_dispatch "tok" "key"
    (some "enc") (fun _ => true) (fun _ => .ok "<xml/>")
    (fun _ => some ⟨"u", "text", some "hi"⟩) false
    (by decide) (by decide)
  exact ⟨h.1, h.2.1, h.2.2.2.mpr
    ⟨"enc", "<xml/>", ⟨"u", "text", some "hi"⟩, rfl, by decide, rfl, rfl,
      rfl, rfl, "hi", rfl, by decide⟩⟩

/-- Claim C4, code bug evidence: after two successful calls with latency samples 10
then 0, the claim says `avgResponseTime` is their arithmetic mean 5, but
the code stores 0. `updateAvgResponseTime` runs before
`successfulRequests` is incremented, so its divisor is the previous
success count: the update actually computed on the n-th success is
`avg' = (avg*(n-2) + sample)/(n-1)`, which discards the first sample
from the running average (while failed calls indeed leave the average
unchanged). -/
theorem C4_avgResponseTime_discards_first_sample :
    (requestStats (requestStats initialPoolStats (some 10))
      (some 0)).successfulRequests = 2 ∧
    (requestStats (requestStats initialPoolStats (some 10))
      (some 0)).avgResponseTime = 0 ∧
    ((10 : Rat) + 0) / 2 = 5 := by
  refine ⟨rfl, ?_, by norm_num⟩
  simp only [requestStats, initialPoolStats, updateAvgResponseTime]
  norm_num

/-- Claim C5: whenever `execute` is invoked while the breaker is open (with
a positive `lastFailureTime`, as in every reachable open state, since
`lastFailureTime` is only ever assigned `Date.now()`): if
`now - lastFailureTime` has not exceeded `resetTimeout`, the call is
rejected with a `CircuitBreakerOpenError` carrying `timeUntilReset` and
the wrapped `fn` never runs — the breaker is left unchanged, in
particular still open; if `now - lastFailureTime > resetTimeout`, the
breaker first transitions to half-open with its trial success counter
reset to 0 and then admits the call (running `fn` and applying the
normal outcome transitions). -/
theorem C5_execute_open_state (cb : CircuitBreaker) (now t : Int)
    (fnOk : Bool) (hstate : cb.state = .opened)
    (hlft : cb.lastFailureTime = some t) (ht : 0 < t) :
    (now - t ≤ cb.resetTimeout →
      execute cb now fnOk =
        .rejected (some (max 0 (cb.resetTimeout - (now - t)))) cb) ∧
    (cb.resetTimeout < now - t →
      execute cb now fnOk =
        (if fnOk then
          .completed true (onSuccess
            { cb with state := .halfOpen, halfOpenSuccess := 0 })
        else
          .completed false (onFailure
            { cb with state := .halfOpen, halfOpenSuccess := 0 } now))) := by
  constructor <;> intro h
  · unfold execute getTimeUntilReset
    rw [if_pos hstate, hlft]
    dsimp only
    rw [if_neg (by omega : ¬ (t ≠ 0 ∧ cb.resetTimeout < now - t)),
      if_pos (by exact ⟨hstate, by omega⟩ : cb.state = .opened ∧ t ≠ 0)]
  · unfold execute
    rw [if_pos hstate, hlft]
    dsimp only
    rw [if_pos (by omega : t ≠ 0 ∧ cb.resetTimeout < now - t)]

/-- Witness for C5: a concrete open breaker, rejected before the reset
timeout elapses and admitted (as half-open) after it. -/
theorem C5_witness :
    execute ⟨5, 30000, 3, .opened, 5, some 1000, 0⟩ 2000 true =
      .rejected (some 29000) ⟨5, 30000, 3, .opened, 5, some 1000, 0⟩ ∧
    execute ⟨5, 30000, 3, .opened, 5, some 1000, 0⟩ 40000 true =
      .completed true
        (onSuccess ⟨5, 30000, 3, .halfOpen, 5, some 1000, 0⟩) := by
  have h1 := (C5_execute_open_state ⟨5, 30000, 3, .opened, 5, some 1000, 0⟩
    2000 1000 true rfl rfl (by decide)).1 (by decide)
  have h2 := (C5_execute_open_state ⟨5, 30000, 3, .opened, 5, some 1000, 0⟩
    40000 1000 true rfl rfl (by decide)).2 (by decide)
  constructor
  · rw [h1]; decide
  · rw [h2]; decide

theorem countWindow_append (w x : Int) (a b : List Int) :
    countWindow w x (a ++ b) = countWindow w x a + countWindow w x b := by
  simp [countWindow, List.filter_append]

theorem countWindow_le_filter (w x : Int) (A : List Int) :
    countWindow w x A ≤ (A.filter (fun s => decide (x < s))).length := by
  refine List.Sublist.length_le (List.monotone_filter_right A ?_)
  intro a
  by_cases hxa : x < a
  · simp [hxa]
  · simp [hxa]

theorem filter_le_filter_of_lower (stored : List Int) (y z : Int)
    (h : z ≤ y) :
    List.Sublist (stored.filter (fun s => decide (y < s)))
      (stored.filter (fun s => decide (z < s))) := by
  refine List.monotone_filter_right stored ?_
  intro a
  by_cases hya : y < a
  · simp [hya, show z < a by omega]
  · simp [hya]

/-- Invariant-carrying induction behind the sliding-window bound: `A` is
the list of previously admitted times, `τ` a lower bound on the pending
call times, and the stored array dominates (as a sublist) the admitted
times above every cutoff `y ≥ τ - windowMs`. -/
theorem rlRun_window_aux (windowMs : Int) (maxRequests : Nat) :
    ∀ (ts stored A : List Int) (τ : Int),
      (∀ u ∈ ts, τ ≤ u) → ts.Pairwise (· ≤ ·) →
      (∀ y : Int, τ - windowMs ≤ y →
        List.Sublist (A.filter (fun s => decide (y < s)))
          (stored.filter (fun s => decide (y < s)))) →
      (∀ x : Int, countWindow windowMs x A ≤ maxRequests) →
      ∀ x : Int,
        countWindow windowMs x
          (A ++ admittedTimes (rlRun windowMs maxRequests stored ts)) ≤
          maxRequests := by
  intro ts
  induction ts with
  | nil =>
    intro stored A τ _ _ _ hbound x
    simpa [rlRun, admittedTimes, countWindow] using hbound x
  | cons t ts ih =>
    intro stored A τ hτ hpair hinv hbound x
    have hτt : τ ≤ t := hτ t (by simp)
    have hts' : ∀ u ∈ ts, t ≤ u := (List.pairwise_cons.mp hpair).1
    have hpair' := (List.pairwise_cons.mp hpair).2
    by_cases hadm : maxRequests ≤
        (stored.filter (fun s => decide (t - windowMs < s))).length
    · -- denied: state unchanged, nothing admitted at this step
      simp only [rlRun, check, if_pos hadm]
      have : admittedTimes ((t, false) ::
          rlRun windowMs maxRequests stored ts) =
          admittedTimes (rlRun windowMs maxRequests stored ts) := by
        simp [admittedTimes]
      rw [this]
      refine ih stored A t hts' hpair' ?_ hbound x
      intro y hy
      exact hinv y (by omega)
    · -- admitted: `t` is recorded, the filtered array is stored back
      simp only [rlRun, check, if_neg hadm]
      have : admittedTimes ((t, true) ::
          rlRun windowMs maxRequests
            (stored.filter (fun s => decide (t - windowMs < s)) ++ [t]) ts) =
          t :: admittedTimes (rlRun windowMs maxRequests
            (stored.filter (fun s => decide (t - windowMs < s)) ++ [t]) ts) := by
        simp [admittedTimes]
      rw [this, List.append_cons]
      refine ih (stored.filter (fun s => decide (t - windowMs < s)) ++ [t])
        (A ++ [t]) t hts' hpair' ?_ ?_ x
      · -- the invariant is preserved
        intro y hy
        rw [List.filter_append, List.filter_append]
        refine List.Sublist.append ?_ (List.Sublist.refl _)
        have hff : (stored.filter (fun s => decide (t - windowMs < s))).filter
            (fun s => decide (y < s)) =
            stored.filter (fun s => decide (y < s)) := by
          rw [List.filter_filter]
          refine List.filter_congr ?_
          intro a _
          by_cases hya : y < a
          · simp [hya, show t - windowMs < a by omega]
          · simp [hya]
        rw [hff]
        exact hinv y (by omega)
      · -- the window bound extends to `A ++ [t]`
        intro x'
        rw [countWindow_append]
        by_cases hw : x' < t ∧ t ≤ x' + windowMs
        · have h1 : countWindow windowMs x' [t] = 1 := by
            simp [countWindow, hw]
          have h2 : countWindow windowMs x' A <
              maxRequests := by
            have ha := countWindow_le_filter windowMs x' A
            have hb := List.Sublist.length_le (hinv x' (by omega))
            have hc := List.Sublist.length_le
              (filter_le_filter_of_lower stored x' (t - windowMs)
                (by omega))
            omega
          omega
        · have h1 : countWindow windowMs x' [t] = 0 := by
            simp [countWindow, hw]
          have := hbound x'
          omega

/-- Claim C6: for every key and every (chronologically ordered) sequence of
`check` calls, at most `maxRequests` calls are admitted within any
trailing `windowMs` interval; a denied call leaves the stored array
untouched and reports `waitTime = oldestTimestamp + windowMs - now`
(`oldest` being `timestamps[0]` of the in-window array, which is
nonempty on denial since `maxRequests > 0`); an admitted call records
`now` (appended to the in-window array, which replaces the stored one)
and reports `remaining = maxRequests - count - 1`, where `count` is the
number of recorded timestamps still inside the window before this
call. -/
theorem C6_rateLimiter_sliding_window (windowMs : Int) (maxRequests : Nat)
    (hmax : 0 < maxRequests) :
    (∀ ts : List Int, ts.Pairwise (· ≤ ·) → ∀ x : Int,
      countWindow windowMs x
        (admittedTimes (rlRun windowMs maxRequests [] ts)) ≤ maxRequests) ∧
    (∀ (stored : List Int) (now : Int),
      maxRequests ≤
        (stored.filter (fun t => decide (now - windowMs < t))).length →
      check windowMs maxRequests stored now =
        (⟨false,
          some ((stored.filter
            (fun t => decide (now - windowMs < t))).headI + windowMs - now),
          0,
          some ((stored.filter
            (fun t => decide (now - windowMs < t))).headI + windowMs)⟩,
          stored) ∧
      stored.filter (fun t => decide (now - windowMs < t)) ≠ []) ∧
    (∀ (stored : List Int) (now : Int),
      (stored.filter (fun t => decide (now - windowMs < t))).length <
        maxRequests →
      check windowMs maxRequests stored now =
        (⟨true, none,
          maxRequests -
            (stored.filter (fun t => decide (now - windowMs < t))).length - 1,
          some (now + windowMs)⟩,
          stored.filter (fun t => decide (now - windowMs < t)) ++ [now])) := by
  refine ⟨?_, ?_, ?_⟩
  · intro ts hpair x
    cases ts with
    | nil => simp [rlRun, admittedTimes, countWindow]
    | cons t ts' =>
      refine rlRun_window_aux windowMs maxRequests (t :: ts') [] [] t
        ?_ hpair ?_ ?_ x
      · intro u hu
        rcases List.mem_cons.mp hu with rfl | hu
        · exact le_refl _
        · exact (List.pairwise_cons.mp hpair).1 u hu
      · intro y _
        simp
      · intro x'
        simp [countWindow]
  · intro stored now hden
    refine ⟨?_, ?_⟩
    · simp only [check]
      rw [if_pos hden]
    · intro hnil
      rw [hnil] at hden
      simp at hden
      omega
  · intro stored now hadm
    simp only [check]
    rw [if_neg (by omega)]

/-- Witness for C6: concrete limiter with `windowMs = 1000`,
`maxRequests = 3`; four back-to-back calls admit only three, and the
denial/admission formulas evaluate on concrete states. -/
theorem C6_witness :
    (countWindow 1000 0
      (admittedTimes (rlRun 1000 3 [] [1, 2, 3, 4])) ≤ 3) ∧
    check 1000 3 [1, 2, 3] 4 =
      (⟨false, some 997, 0, some 1001⟩, [1, 2, 3]) ∧
    check 1000 3 [1, 2] 4 = (⟨true, none, 0, some 1004⟩, [1, 2, 4]) := by
  refine ⟨?_, ?_, ?_⟩
  · exact (C6_rateLimiter_sliding_window 1000 3 (by decide)).1 [1, 2, 3, 4]
      (by decide) 0
  · exact (((C6_rateLimiter_sliding_window 1000 3 (by decide)).2.1 [1, 2, 3]
      4 (by decide)).1).trans (by decide)
  · exact ((C6_rateLimiter_sliding_window 1000 3 (by decide)).2.2 [1, 2]
      4 (by decide)).trans (by decide)

/-- Claim C10: when `check` denies a request (the in-window count is at
least `maxRequests`), it records no new timestamp for the key: the
stored array is returned unchanged (the code only writes back on the
admission branch), so denied calls never consume window capacity nor
push back the time at which a later call is admitted. -/
theorem C10_denied_check_records_nothing (windowMs : Int)
    (maxRequests : Nat) (stored : List Int) (now : Int)
    (hden : maxRequests ≤
      (stored.filter (fun t => decide (now - windowMs < t))).length) :
    (check windowMs maxRequests stored now).1.allowed = false ∧
    (check windowMs maxRequests stored now).2 = stored := by
  simp only [check]
  rw [if_pos hden]
  exact ⟨rfl, rfl⟩

/-- Witness for C10: a concrete denied call leaves the stored array
unchanged. -/
theorem C10_witness :
    (check 1000 3 [1, 2, 3] 4).1.allowed = false ∧
    (check 1000 3 [1, 2, 3] 4).2 = [1, 2, 3] :=
  C10_denied_check_records_nothing 1000 3 [1, 2, 3] 4 (by decide)

theorem processItemAux_spec (f : Nat → Bool) :
    ∀ (left retries : Nat) (st : QueueStats) (failed : List Nat),
      (processItemAux f left retries st failed).2.2 ≤ left + 1 ∧
      ((∀ k, retries ≤ k → k ≤ retries + left → f k = false) →
        processItemAux f left retries st failed =
          ({ st with
              failed := st.failed + 1
              retries := st.retries + left },
            failed ++ [retries + left], left + 1)) ∧
      ((∃ k, retries ≤ k ∧ k ≤ retries + left ∧ f k = true) →
        (processItemAux f left retries st failed).1.success =
            st.success + 1 ∧
          (processItemAux f left retries st failed).1.failed = st.failed ∧
          (processItemAux f left retries st failed).2.1 = failed) := by
  intro left
  induction left with
  | zero =>
    intro retries st failed
    by_cases hf : f retries
    · refine ⟨by simp [processItemAux, hf], ?_, ?_⟩
      · intro hall
        have := hall retries (le_refl _) (by omega)
        rw [hf] at this
        cases this
      · intro _
        simp [processItemAux, hf]
    · refine ⟨by simp [processItemAux, hf], ?_, ?_⟩
      · intro _
        simp [processItemAux, hf]
      · intro ⟨k, hk1, hk2, hk3⟩
        have : k = retries := by omega
        subst this
        rw [hk3] at hf
        cases hf rfl
  | succ left ih =>
    intro retries st failed
    by_cases hf : f retries
    · refine ⟨by simp [processItemAux, hf], ?_, ?_⟩
      · intro hall
        have := hall retries (le_refl _) (by omega)
        rw [hf] at this
        cases this
      · intro _
        simp [processItemAux, hf]
    · have ihs := ih (retries + 1) { st with retries := st.retries + 1 }
        failed
      refine ⟨?_, ?_, ?_⟩
      · simp only [processItemAux, if_neg hf]
        have := ihs.1
        omega
      · intro hall
        simp only [processItemAux, if_neg hf]
        rw [ihs.2.1 (fun k h1 h2 => hall k (by omega) (by omega))]
        have e1 : st.retries + 1 + left = st.retries + (left + 1) := by omega
        have e2 : retries + 1 + left = retries + (left + 1) := by omega
        simp [e1, e2]
      · intro ⟨k, hk1, hk2, hk3⟩
        have hk : retries + 1 ≤ k := by
          rcases Nat.eq_or_lt_of_le hk1 with rfl | h
          · rw [hk3] at hf; cases hf rfl
          · omega
        have := ihs.2.2 ⟨k, hk, by omega, hk3⟩
        simp only [processItemAux, if_neg hf]
        exact ⟨this.1, this.2.1, this.2.2⟩

/-- Claim C7: for every item added to the queue, the delivery function runs
at most `maxRetries + 1` times in total; an item that fails on every
attempt is moved to the failure ledger with its recorded `retries` equal
to `maxRetries` (and is not counted as a success), while an item that
succeeds on some attempt within the budget is counted in the success
statistic and never enters the failure ledger. -/
theorem C7_retry_budget (maxRetries : Nat) (f : Nat → Bool)
    (st : QueueStats) (failed : List Nat) :
    (processItem maxRetries f st failed).2.2 ≤ maxRetries + 1 ∧
    ((∀ k, k ≤ maxRetries → f k = false) →
      processItem maxRetries f st failed =
        ({ st with
            failed := st.failed + 1
            retries := st.retries + maxRetries },
          failed ++ [maxRetries], maxRetries + 1)) ∧
    ((∃ k, k ≤ maxRetries ∧ f k = true) →
      (processItem maxRetries f st failed).1.success = st.success + 1 ∧
      (processItem maxRetries f st failed).1.failed = st.failed ∧
      (processItem maxRetries f st failed).2.1 = failed) := by
  have h := processItemAux_spec f maxRetries 0 st failed
  refine ⟨h.1, ?_, ?_⟩
  · intro hall
    have := h.2.1 (fun k _ h2 => hall k (by omega))
    simpa [processItem] using this
  · intro ⟨k, hk1, hk2⟩
    exact h.2.2 ⟨k, by omega, by omega, hk2⟩

/-- Witness for C7 (mirroring the spec's §8 test): with `maxRetries = 2`,
an item failing twice then succeeding on the 3rd attempt is counted as a
success and stays out of the ledger in exactly 3 attempts; an item that
always fails lands in the ledger with `retries = 2`. -/
theorem C7_witness :
    (processItem 2 (fun k => 2 ≤ k) ⟨1, 0, 0, 0⟩ []).1.success = 1 ∧
    (processItem 2 (fun k => 2 ≤ k) ⟨1, 0, 0, 0⟩ []).1.failed = 0 ∧
    (processItem 2 (fun k => 2 ≤ k) ⟨1, 0, 0, 0⟩ []).2.1 = [] ∧
    (processItem 2 (fun k => 2 ≤ k) ⟨1, 0, 0, 0⟩ []).2.2 ≤ 3 ∧
    processItem 2 (fun _ => false) ⟨1, 0, 0, 0⟩ [] =
      (⟨1, 0, 1, 2⟩, [2], 3) := by
  have h1 := C7_retry_budget 2 (fun k => decide (2 ≤ k)) ⟨1, 0, 0, 0⟩ []
  have h2 := C7_retry_budget 2 (fun _ => false) ⟨1, 0, 0, 0⟩ []
  have hs := h1.2.2 ⟨2, by decide, by decide⟩
  have hfail := h2.2.1 (fun k _ => rfl)
  exact ⟨hs.1, hs.2.1, hs.2.2, h1.1, hfail.trans (by decide)⟩

/-- Claim C9: `get` never returns data from an entry past its expiry: if
`now > expiresAt` for the stored entry, `get` deletes the entry and
returns none; otherwise it returns the stored data and increments the
entry's hit counter. Consequently (first conjunct) any data returned by
`get` comes from an entry whose `expiresAt` is still ≥ `now`, so no
operation sequence can observe cached data after its `expiresAt`. -/
theorem C9_cache_get_never_past_expiry {T : Type} (c : RequestCache T)
    (now : Int) (key : String) :
    (∀ d : T, (RequestCache.get c now key).1 = some d →
      ∃ p, c.cache.find? (fun q => q.1 == key) = some p ∧ d = p.2.data ∧
        now ≤ p.2.expiresAt) ∧
    ((RequestCache.get c now key).1 = none →
      c.cache.find? (fun q => q.1 == key) = none ∨
      ∃ p, c.cache.find? (fun q => q.1 == key) = some p ∧
        p.2.expiresAt < now) ∧
    (∀ p, c.cache.find? (fun q => q.1 == key) = some p →
      (p.2.expiresAt < now →
        RequestCache.get c now key =
          (none, ⟨c.cache.filter (fun q => !(q.1 == key))⟩)) ∧
      (now ≤ p.2.expiresAt →
        RequestCache.get c now key =
          (some p.2.data,
            ⟨c.cache.map (fun q =>
              if q.1 == key then
                (q.1, { q.2 with hitCount := q.2.hitCount + 1 })
              else q)⟩))) := by
  unfold RequestCache.get
  cases hfind : c.cache.find? (fun p => p.1 == key) with
  | none =>
    refine ⟨?_, ?_, ?_⟩
    · intro d hd
      cases hd
    · intro _
      exact Or.inl rfl
    · intro p hp
      cases hp
  | some p =>
    dsimp only
    by_cases hexp : p.2.expiresAt < now
    · rw [if_pos hexp]
      refine ⟨?_, ?_, ?_⟩
      · intro d hd
        cases hd
      · intro _
        exact Or.inr ⟨p, rfl, hexp⟩
      · intro p2 hp2
        cases hp2
        exact ⟨fun _ => rfl, fun h => by omega⟩
    · rw [if_neg hexp]
      refine ⟨?_, ?_, ?_⟩
      · intro d hd
        cases hd
        exact ⟨p, rfl, rfl, by omega⟩
      · intro hd
        cases hd
      · intro p2 hp2
        cases hp2
        exact ⟨fun h => by omega, fun _ => rfl⟩

/-- Witness for C9: a concrete cache where a fresh entry is served (with
its hit counter bumped) and an expired entry is evicted. -/
theorem C9_witness :
    (RequestCache.get (⟨[("k", ⟨7, 100, 0, 0⟩)]⟩ : RequestCache Nat)
        50 "k" =
      (some 7, ⟨[("k", ⟨7, 100, 0, 1⟩)]⟩)) ∧
    (RequestCache.get (⟨[("k", ⟨7, 100, 0, 0⟩)]⟩ : RequestCache Nat)
        101 "k" =
      (none, ⟨[]⟩)) := by
  have h :=
    (C9_cache_get_never_past_expiry (⟨[("k", ⟨7, 100, 0, 0⟩)]⟩ :
      RequestCache Nat) 50 "k").2.2 ("k", ⟨7, 100, 0, 0⟩) (by decide)
  have h2 :=
    (C9_cache_get_never_past_expiry (⟨[("k", ⟨7, 100, 0, 0⟩)]⟩ :
      RequestCache Nat) 101 "k").2.2 ("k", ⟨7, 100, 0, 0⟩) (by decide)
  constructor
  · exact (h.2 (by decide)).trans (by decide)
  · exact (h2.1 (by decide)).trans (by decide)

end Wework